import Mathlib

/-!
Verification of the juju-core topology, relationer, provisioner and
provider-facing operations, shallowly embedded from the Go sources
(package state topology.go fragment, package uniter relationer fragment,
environs/maas/environ.go, environs/tools/list.go).

Go maps are embedded as association lists whose observable behaviour is
the lookup of the first matching key; map reads of a missing int key
yield the zero value, as in Go.
-/

namespace Juju


/-- Association-list lookup: first entry whose key matches. -/
def alookup {β : Type} : List (String × β) → String → Option β
  | [], _ => none
  | p :: rest, k => if p.1 = k then some p.2 else alookup rest k

/-- zkUnit from state/topology.go: the unit data within the /topology node. -/
structure ZkUnit where
  sequence : Int
  machine : String
deriving Repr, DecidableEq

/-- zkService from state/topology.go: the service data within the /topology node. -/
structure ZkService where
  name : String
  units : List (String × ZkUnit)
deriving Repr, DecidableEq

/-- zkTopology from state/topology.go: the content of the /topology node. -/
structure Topology where
  version : Int
  services : List (String × ZkService)
  unitSequence : List (String × Int)
deriving Repr, DecidableEq

/-- The supported protocol version (const topologyVersion in topology.go). -/
def topologyVersion : Int := 1

/-- The empty topology document, as built by retryTopologyChange for a
missing /topology node. -/
def emptyTopology : Topology :=
  { version := topologyVersion, services := [], unitSequence := [] }

/-- Go %q rendering of a string (quotation marks around the text). -/
def quoted (s : String) : String := "\"" ++ s ++ "\""

/-- hasService from topology.go. -/
def hasService (t : Topology) (key : String) : Bool :=
  (alookup t.services key).isSome

/-- The name of the service stored under a key, when present. -/
def serviceNameOf (t : Topology) (key : String) : Option String :=
  (alookup t.services key).map ZkService.name

/-- Reading the unit-sequence map: a missing key reads as 0, as a Go
map read of a missing int key does. -/
def seqOf (t : Topology) (name : String) : Int :=
  (alookup t.unitSequence name).getD 0

/-- Store a value in the unit-sequence map (lookup-equivalent to a Go
map write). -/
def setSeq (us : List (String × Int)) (name : String) (v : Int) :
    List (String × Int) :=
  (name, v) :: us

/-- Replace the service stored under a key. -/
def updateService (svcs : List (String × ZkService)) (key : String)
    (svc : ZkService) : List (String × ZkService) :=
  svcs.map fun p => if p.1 = key then (p.1, svc) else p

/-- The key of a service currently containing the unit key, if any:
the loop over t.topology.Services in addUnit. -/
def unitOwner (svcs : List (String × ZkService)) (unitKey : String) :
    Option String :=
  ((svcs.find? fun p => (alookup p.2.units unitKey).isSome).map Prod.fst)

/-- addUnit from topology.go: adds a new unit and returns the sequence
number, which is read from and then bumped in the per-service-name
unit-sequence counter. -/
def addUnit (t : Topology) (serviceKey unitKey : String) :
    Except String (Int × Topology) :=
  match alookup t.services serviceKey with
  | none => .error ("service with key " ++ quoted serviceKey ++ " cannot be found")
  | some svc =>
    match unitOwner t.services unitKey with
    | some owner =>
      .error ("unit " ++ quoted unitKey ++ " already in use in servie " ++ quoted owner)
    | none =>
      let seq := seqOf t svc.name
      let svc2 : ZkService :=
        { svc with units := svc.units ++ [(unitKey, { sequence := seq, machine := "" })] }
      .ok (seq,
        { t with
          services := updateService t.services serviceKey svc2,
          unitSequence := setSeq t.unitSequence svc.name (seq + 1) })

/-- removeUnit from topology.go: removes a unit from a service. -/
def removeUnit (t : Topology) (serviceKey unitKey : String) :
    Except String Topology :=
  match alookup t.services serviceKey with
  | none => .error ("service with key " ++ quoted serviceKey ++ " cannot be found")
  | some svc =>
    match alookup svc.units unitKey with
    | none => .error ("unit with key " ++ quoted unitKey ++ " cannot be found")
    | some _ =>
      let svc2 : ZkService := { svc with units := svc.units.filter fun p => p.1 ≠ unitKey }
      .ok { t with services := updateService t.services serviceKey svc2 }

/-- unitName from topology.go: the human-readable name of a unit,
rendered as service name, slash, sequence number. -/
def unitName (t : Topology) (serviceKey unitKey : String) :
    Except String String :=
  match alookup t.services serviceKey with
  | none => .error ("service with key " ++ quoted serviceKey ++ " cannot be found")
  | some svc =>
    match alookup svc.units unitKey with
    | none => .error ("unit with key " ++ quoted unitKey ++ " cannot be found")
    | some u => .ok (svc.name ++ "/" ++ toString u.sequence)

/-- Modelled from the spec: addService of topology.go is absent from the
sources (only its tests are present).  Per the spec, it refuses a
duplicated service key and a service name already in use, and otherwise
records an empty service under the key; the unit-sequence map is not
touched. -/
def addService (t : Topology) (key name : String) : Except String Topology :=
  if (alookup t.services key).isSome then
    .error ("attempted to add duplicated service " ++ quoted key)
  else if t.services.any (fun p => p.2.name = name) then
    .error ("service name " ++ quoted name ++ " already in use")
  else
    .ok { t with services := t.services ++ [(key, { name := name, units := [] })] }

/-- Modelled from the spec: removeService of topology.go is absent from
the sources.  Per the spec it removes the service record; the
service-name-keyed unit sequence counter is preserved across service
deletion and recreation. -/
def removeService (t : Topology) (key : String) : Except String Topology :=
  if (alookup t.services key).isSome then
    .ok { t with services := t.services.filter fun p => p.1 ≠ key }
  else
    .error ("service with key " ++ quoted key ++ " cannot be found")

/-- The topology mutators relevant to unit naming, as an operation type. -/
inductive Op where
  | addService (key name : String)
  | removeService (key : String)
  | addUnit (serviceKey unitKey : String)
  | removeUnit (serviceKey unitKey : String)
deriving Repr, DecidableEq

/-- Apply one operation; a failing operation leaves the topology
untouched (each Go mutator returns an error before mutating). -/
def applyOp (t : Topology) : Op → Topology
  | .addService k n => ((addService t k n).toOption).getD t
  | .removeService k => ((removeService t k).toOption).getD t
  | .addUnit sk uk => (((addUnit t sk uk).toOption).map Prod.snd).getD t
  | .removeUnit sk uk => ((removeUnit t sk uk).toOption).getD t

/-- Apply a list of operations in order. -/
def run (t : Topology) (ops : List Op) : Topology :=
  ops.foldl applyOp t

/-- parseTopology from topology.go, applied to an already-unmarshalled
document: a version other than the supported one is refused with the
incompatible-versions error, otherwise the document is accepted. -/
def parseTopology (doc : Topology) : Except String Topology :=
  if doc.version ≠ topologyVersion then
    .error ("incompatible topology versions: got " ++ toString doc.version ++
      ", want " ++ toString topologyVersion)
  else
    .ok doc

/-- The scenario of TestGlobalUniqueUnitNames: add service wordpress,
units u-0 and u-1 (sequences 0 and 1), remove the service, add a service
with the same name and key again, add unit u-1 once more: the unit gets
sequence 2 and name wordpress/2, never wordpress/0. -/
def wordpressScenarioHolds : Bool :=
  match addService emptyTopology "s-0" "wordpress" with
  | .error _ => false
  | .ok t1 =>
    match addUnit t1 "s-0" "u-0" with
    | .error _ => false
    | .ok (s1, t2) =>
      match addUnit t2 "s-0" "u-1" with
      | .error _ => false
      | .ok (s2, t3) =>
        match removeService t3 "s-0" with
        | .error _ => false
        | .ok t4 =>
          match addService t4 "s-0" "wordpress" with
          | .error _ => false
          | .ok t5 =>
            match addUnit t5 "s-0" "u-1" with
            | .error _ => false
            | .ok (s3, t6) =>
              s1 == 0 && s2 == 1 && s3 == 2 &&
                (match unitName t6 "s-0" "u-1" with
                 | .ok s => s == "wordpress/2"
                 | .error _ => false)

/-- Witness for C1 at the start of the wordpress scenario: adding u-0
then u-1 to the wordpress service yields sequences 0 then 1. -/
def w_t0 : Topology := (addService emptyTopology "s-0" "wordpress").toOption.getD emptyTopology

def w_t1 : Topology := (((addUnit w_t0 "s-0" "u-0").toOption).map Prod.snd).getD emptyTopology

def w_t2 : Topology :=
  (((addUnit (run w_t1 []) "s-0" "u-1").toOption).map Prod.snd).getD emptyTopology

def c3t1 : Topology := (addService emptyTopology "s-0" "wordpress").toOption.getD emptyTopology

/-- The key u-0 is used by a successful addUnit. -/
def c3used : Bool :=
  match addUnit c3t1 "s-0" "u-0" with
  | .ok _ => true
  | .error _ => false

def c3t2 : Topology := (((addUnit c3t1 "s-0" "u-0").toOption).map Prod.snd).getD emptyTopology

def c3t3 : Topology := (removeUnit c3t2 "s-0" "u-0").toOption.getD emptyTopology

/-- After the unit is removed, the same key is offered to addUnit again. -/
def c3reused : Bool :=
  match addUnit c3t3 "s-0" "u-0" with
  | .ok _ => true
  | .error _ => false

/-! ## The Relationer (worker/uniter relationer fragment)

The presence pinger and the hook queue are external collaborators; each
is represented by the outcome its Stop method will report, which is the
only behaviour the relationer code observes.  A nil Go error is none. -/

/-- The hook information delivered from the queue to the relationer. -/
structure HookInfo where
  hookKind : String
  remoteUnit : String
  members : List (String × Int)
deriving Repr, DecidableEq

/-- A running presence pinger, represented by its Stop outcome. -/
structure Pinger where
  stopResult : Option String
deriving Repr, DecidableEq

/-- A running hook queue, represented by its Stop outcome. -/
structure HookQueue where
  stopResult : Option String
deriving Repr, DecidableEq

/-- The Relationer: the charm-facing relation context members, the
pinger field (nil when not joined) and the queue field (nil when hooks
are not started). -/
structure Relationer where
  ctxMembers : List (String × Int)
  pinger : Option Pinger
  queue : Option HookQueue
deriving Repr, DecidableEq

/-- The outcome of a call that may abort the task (Go panic) instead of
returning. -/
inductive Outcome (α : Type) where
  | panicked (msg : String)
  | returned (a : α)
deriving Repr, DecidableEq

/-- Relationer.Join: panics if the pinger is already set; otherwise asks
the relation unit to join (outcome supplied by the caller, as the state
layer is external) and on success records the pinger. -/
def join (r : Relationer) (ruJoin : Except String Pinger) :
    Outcome (Option String × Relationer) :=
  match r.pinger with
  | some _ => .panicked "unit already joined!"
  | none =>
    match ruJoin with
    | .error e => .returned (some e, r)
    | .ok p => .returned (none, { r with pinger := some p })

/-- Relationer.Abandon: returns nil at once when there is no pinger;
otherwise clears the pinger field and returns the pinger's Stop outcome. -/
def abandon (r : Relationer) : Option String × Relationer :=
  match r.pinger with
  | none => (none, r)
  | some p => (p.stopResult, { r with pinger := none })

/-- Relationer.StartHooks: panics if the queue is already set; otherwise
records the freshly created hook queue. -/
def startHooks (r : Relationer) (newQueue : HookQueue) : Outcome Relationer :=
  match r.queue with
  | some _ => .panicked "hooks already started!"
  | none => .returned { r with queue := some newQueue }

/-- Relationer.StopHooks: returns nil at once when there is no queue;
otherwise clears the queue field and returns the queue's Stop outcome. -/
def stopHooks (r : Relationer) : Option String × Relationer :=
  match r.queue with
  | none => (none, r)
  | some q => (q.stopResult, { r with queue := none })

/-- Relationer.PrepareHook: validates the hook info against the persisted
relation state (validation outcome supplied by the caller, as
RelationState is external); on failure the hook name is empty, the error
is propagated and the context members are untouched; on success the
context members become the snapshot from the hook info and the hook name
is the relation name, "-relation-", and the hook kind. -/
def prepareHook (validate : HookInfo → Option String) (relName : String)
    (r : Relationer) (hi : HookInfo) : String × Option String × Relationer :=
  match validate hi with
  | some e => ("", some e, r)
  | none =>
    (relName ++ "-relation-" ++ hi.hookKind, none, { r with ctxMembers := hi.members })

def emptyRelationer : Relationer := { ctxMembers := [], pinger := none, queue := none }

def sampleHookInfo : HookInfo :=
  { hookKind := "joined", remoteUnit := "u/1", members := [("u/1", 3)] }

def joinedRelationer : Relationer :=
  { ctxMembers := [], pinger := some { stopResult := none }, queue := some { stopResult := none } }

/-! ## The provisioner (worker/provisioner)

Modelled from the spec: the provisioner worker itself is absent from the
sources (only worker/provisioner/provisioner_test.go is present).  Per
the spec, on each tick the provisioner reads the environment
configuration; an invalid configuration is logged and the pass skipped
while the previous valid configuration is retained and continues to be
used; machines without an instance id are started with the current
(last-known-good) configuration.  A configuration-change event carries
either a valid configuration or none (invalid). -/

/-- An environment configuration, opaque to the provisioner. -/
abbrev EnvCfg := String

/-- A machine record: its id and its recorded instance id, if any. -/
structure PMachine where
  id : Nat
  instId : Option Nat
deriving Repr, DecidableEq

/-- A startInstance call issued to the provider: which machine, the
instance id returned, and the configuration used. -/
structure StartRecord where
  machineId : Nat
  instId : Nat
  cfg : EnvCfg
deriving Repr, DecidableEq

/-- Provisioner state: the last-known-good configuration (none until one
valid configuration has been seen), the machine set, a fresh-instance
counter, and the log of startInstance calls. -/
structure PState where
  environ : Option EnvCfg
  machines : List PMachine
  nextInst : Nat
  started : List StartRecord
deriving Repr, DecidableEq

/-- Modelled from the spec: assign fresh instance ids to every machine
that has none. -/
def provisionMachines (next : Nat) : List PMachine → List PMachine
  | [] => []
  | m :: rest =>
    match m.instId with
    | some _ => m :: provisionMachines next rest
    | none => { id := m.id, instId := some next } :: provisionMachines (next + 1) rest

/-- Modelled from the spec: the startInstance calls issued in one pass,
one per machine without an instance id, using the pass configuration. -/
def provisionLog (cfg : EnvCfg) (next : Nat) : List PMachine → List StartRecord
  | [] => []
  | m :: rest =>
    match m.instId with
    | some _ => provisionLog cfg next rest
    | none => { machineId := m.id, instId := next, cfg := cfg } :: provisionLog cfg (next + 1) rest

/-- Modelled from the spec: one provisioner pass.  With no valid
configuration ever seen, the pass is skipped; otherwise every machine
without an instance id is started using the retained configuration. -/
def provisionPass (s : PState) : PState :=
  match s.environ with
  | none => s
  | some cfg =>
    { environ := some cfg,
      machines := provisionMachines s.nextInst s.machines,
      nextInst := s.nextInst + s.machines.countP (fun m => m.instId.isNone),
      started := s.started ++ provisionLog cfg s.nextInst s.machines }

/-- The events the provisioner watches: a configuration change (none
meaning the new configuration is invalid) or a machine addition. -/
inductive PEvent where
  | configChange (cfg : Option EnvCfg)
  | addMachine (id : Nat)
deriving Repr, DecidableEq

/-- Modelled from the spec: one tick.  An invalid configuration is
skipped, retaining the last-known-good one; a valid configuration is
installed and a pass run; an added machine is recorded and a pass run. -/
def pstep (s : PState) : PEvent → PState
  | .configChange none => s
  | .configChange (some cfg) => provisionPass { s with environ := some cfg }
  | .addMachine id =>
    provisionPass { s with machines := s.machines ++ [{ id := id, instId := none }] }

def pInitial : PState :=
  { environ := some "good", machines := [], nextInst := 0, started := [] }

/-! ## EnsureTools (worker/uniter tools fragment)

Modelled from the spec: uniter.EnsureTools itself is absent from the
sources (only its test is).  Per the spec, the unit's tool directory
holds one symlink per recognized hook command name, each pointing at
./jujuc, and EnsureTools creates them idempotently, never overwriting a
correct symlink.  The directory is embedded as an association list from
link name to (target, modification time); the clock argument is the
mtime any newly written link would receive, so an entry keeping its
mtime across a call was not rewritten. -/

abbrev ToolsDir := List (String × String × Nat)

/-- Replace the value stored under a key (all entries with that key). -/
def aupdate {β : Type} (l : List (String × β)) (k : String) (b : β) :
    List (String × β) :=
  l.map fun e => if e.1 = k then (k, b) else e

/-- Modelled from the spec: ensure a single named hook tool symlink: a
correct existing link is left untouched; a wrong link is replaced and a
missing one created, with the current clock as mtime. -/
def ensureOne (clock : Nat) (d : ToolsDir) (n : String) : ToolsDir :=
  match alookup d n with
  | some (tgt, _) => if tgt = "./jujuc" then d else aupdate d n ("./jujuc", clock)
  | none => d ++ [(n, "./jujuc", clock)]

/-- Modelled from the spec: EnsureTools ensures one symlink per
recognized hook command name. -/
def ensureTools (names : List String) (clock : Nat) (d : ToolsDir) : ToolsDir :=
  names.foldl (ensureOne clock) d

/-! ## The MAAS provider (environs/maas/environ.go)

The MAAS node listing is embedded as the list of instance ids the
provider currently holds; the lower-case instances call filters it by the
requested ids, except that an empty filter matches all instances, exactly
as the HTTP list API does. -/

abbrev InstId := String

inductive EnvironsError where
  | noInstances
  | partialInstances
deriving Repr, DecidableEq

/-- The lower-case instances method: list nodes, filtered by ids; an
empty ids slice matches all instances (not none). -/
def instancesQuery (maas : List InstId) (ids : List InstId) : List InstId :=
  if ids.isEmpty then maas else maas.filter fun i => ids.contains i

/-- maasEnviron.Instances: an empty ids slice is special-cased to
(nil, ErrNoInstances) before any query; an empty query result is
(nil, ErrNoInstances); a result of the wrong cardinality is returned
together with ErrPartialInstances. -/
def Instances (maas : List InstId) (ids : List InstId) :
    List InstId × Option EnvironsError :=
  if ids.length = 0 then ([], some .noInstances)
  else
    let insts := instancesQuery maas ids
    if insts.length = 0 then ([], some .noInstances)
    else if ids.length ≠ insts.length then (insts, some .partialInstances)
    else (insts, none)

/-! ## Tools lists (environs/tools/list.go)

Modelled from the spec: version.Number of the version package is not in
the sources; it is a totally ordered version identifier whose zero value
is the least element, embedded as a natural number with its strict
order as Less. -/

/-- A tools descriptor: its version number (version.Number modelled as a
natural number) and enough payload (the download URL) to distinguish
tools sharing a number. -/
structure Tools where
  number : Nat
  url : String
deriving Repr, DecidableEq

/-- One step of the loop in List.Newest: a strictly newer number resets
the result list to that element alone; an equal number is appended;
an older one is ignored. -/
def newestStep (p : Nat × List Tools) (t : Tools) :
    Nat × List Tools :=
  if p.1 < t.number then (t.number, [t])
  else if t.number = p.1 then (p.1, p.2 ++ [t])
  else p

/-- List.Newest from environs/tools/list.go: the greatest version in the
list together with the tools carrying it, starting from the zero version
and an empty result. -/
def newest (src : List Tools) : Nat × List Tools :=
  src.foldl newestStep (0, [])

/-- The running maximum of the version numbers, seeded at b. -/
def maxFold (b : Nat) (src : List Tools) : Nat :=
  src.foldl (fun a t => max a t.number) b

def newestSample : List Tools :=
  [{ number := 2, url := "a" }, { number := 1, url := "b" }, { number := 2, url := "c" }]

/-! ## Theorems -/

theorem alookup_cons {β : Type} (p : String × β) (l : List (String × β)) (k : String) :
    alookup (p :: l) k = if p.1 = k then some p.2 else alookup l k := rfl

theorem alookup_mem {β : Type} {l : List (String × β)} {k : String} {v : β}
    (h : alookup l k = some v) : (k, v) ∈ l := by
  induction l with
  | nil => simp [alookup] at h
  | cons p rest ih =>
    obtain ⟨k1, v1⟩ := p
    rw [alookup_cons] at h
    by_cases hk : k1 = k
    · subst hk
      simp at h
      subst h
      exact List.mem_cons_self _ _
    · simp [hk] at h
      exact List.mem_cons_of_mem _ (ih h)

theorem alookup_append_of_none {β : Type} {l : List (String × β)} (m : List (String × β))
    {k : String} (h : alookup l k = none) : alookup (l ++ m) k = alookup m k := by
  induction l with
  | nil => simp
  | cons p rest ih =>
    rw [alookup_cons] at h
    by_cases hk : p.1 = k
    · simp [hk] at h
    · simpa [alookup_cons, hk] using ih (by simpa [hk] using h)

theorem alookup_updateService_self (svcs : List (String × ZkService)) (k : String)
    (svc : ZkService) :
    alookup (updateService svcs k svc) k = (alookup svcs k).map fun _ => svc := by
  induction svcs with
  | nil => simp [updateService, alookup]
  | cons p rest ih =>
    by_cases hk : p.1 = k
    · simp [updateService, alookup_cons, hk]
    · simpa [updateService, alookup_cons, hk] using ih

theorem alookup_setSeq (us : List (String × Int)) (name x : String) (v : Int) :
    alookup (setSeq us name v) x = if name = x then some v else alookup us x := rfl

/-- A successful addUnit found the service, found the unit key free,
returned the sequence counter of the service name, and produced the
topology with the unit appended and the counter bumped. -/
theorem addUnit_ok_iff {t : Topology} {sk uk : String} {n : Int} {t1 : Topology} :
    addUnit t sk uk = .ok (n, t1) ↔
      ∃ svc, alookup t.services sk = some svc ∧
        unitOwner t.services uk = none ∧
        n = seqOf t svc.name ∧
        t1 = { t with
          services := updateService t.services sk
            { svc with units := svc.units ++ [(uk, { sequence := n, machine := "" })] },
          unitSequence := setSeq t.unitSequence svc.name (n + 1) } := by
  constructor
  · intro h
    unfold addUnit at h
    cases hsvc : alookup t.services sk with
    | none => rw [hsvc] at h; exact absurd h (by simp)
    | some svc =>
      rw [hsvc] at h
      cases how : unitOwner t.services uk with
      | some o => rw [how] at h; exact absurd h (by simp)
      | none =>
        rw [how] at h
        simp only [Except.ok.injEq, Prod.mk.injEq] at h
        obtain ⟨hn, ht⟩ := h
        exact ⟨svc, rfl, rfl, hn.symm, by rw [← ht, hn]⟩
  · rintro ⟨svc, hsvc, how, hn, ht⟩
    subst hn
    subst ht
    unfold addUnit
    rw [hsvc, how]

theorem addService_ok_unitSequence {t : Topology} {k n : String} {t2 : Topology}
    (h : addService t k n = .ok t2) : t2.unitSequence = t.unitSequence := by
  unfold addService at h
  split at h
  · exact absurd h (by simp)
  · split at h
    · exact absurd h (by simp)
    · simp only [Except.ok.injEq] at h
      rw [← h]

theorem removeService_ok_unitSequence {t : Topology} {k : String} {t2 : Topology}
    (h : removeService t k = .ok t2) : t2.unitSequence = t.unitSequence := by
  unfold removeService at h
  split at h
  · simp only [Except.ok.injEq] at h
    rw [← h]
  · exact absurd h (by simp)

theorem removeUnit_ok_unitSequence {t : Topology} {sk uk : String} {t2 : Topology}
    (h : removeUnit t sk uk = .ok t2) : t2.unitSequence = t.unitSequence := by
  unfold removeUnit at h
  split at h
  · exact absurd h (by simp)
  · split at h
    · exact absurd h (by simp)
    · simp only [Except.ok.injEq] at h
      rw [← h]

/-- The per-service-name unit sequence counter never decreases under any
topology mutator. -/
theorem seqOf_applyOp_mono (t : Topology) (op : Op) (nm : String) :
    seqOf t nm ≤ seqOf (applyOp t op) nm := by
  cases op with
  | addService k n =>
    simp only [applyOp]
    cases h : addService t k n with
    | error e => exact le_rfl
    | ok t2 =>
      show seqOf t nm ≤ seqOf t2 nm
      unfold seqOf
      rw [addService_ok_unitSequence h]
  | removeService k =>
    simp only [applyOp]
    cases h : removeService t k with
    | error e => exact le_rfl
    | ok t2 =>
      show seqOf t nm ≤ seqOf t2 nm
      unfold seqOf
      rw [removeService_ok_unitSequence h]
  | removeUnit sk uk =>
    simp only [applyOp]
    cases h : removeUnit t sk uk with
    | error e => exact le_rfl
    | ok t2 =>
      show seqOf t nm ≤ seqOf t2 nm
      unfold seqOf
      rw [removeUnit_ok_unitSequence h]
  | addUnit sk uk =>
    simp only [applyOp]
    cases h : addUnit t sk uk with
    | error e => exact le_rfl
    | ok p =>
      obtain ⟨n, t1⟩ := p
      show seqOf t nm ≤ seqOf t1 nm
      obtain ⟨svc, hsvc, how, hn, ht⟩ := addUnit_ok_iff.mp h
      subst ht
      subst hn
      unfold seqOf
      rw [alookup_setSeq]
      by_cases hnm : svc.name = nm
      · subst hnm
        rw [if_pos rfl, Option.getD_some]
        omega
      · simp [hnm]

/-- The counter never decreases across any run of mutators. -/
theorem seqOf_run_mono (t : Topology) (ops : List Op) (nm : String) :
    seqOf t nm ≤ seqOf (run t ops) nm := by
  induction ops generalizing t with
  | nil => simp [run]
  | cons op rest ih =>
    calc seqOf t nm ≤ seqOf (applyOp t op) nm := seqOf_applyOp_mono t op nm
      _ ≤ seqOf (run (applyOp t op) rest) nm := ih (applyOp t op)
      _ = seqOf (run t (op :: rest)) nm := by simp [run, List.foldl_cons]

/-- unitName reduced at a topology whose service lookup succeeds. -/
theorem unitName_eq {t : Topology} {sk : String} {svc : ZkService}
    (h : alookup t.services sk = some svc) (uk : String) :
    unitName t sk uk =
      match alookup svc.units uk with
      | none => .error ("unit with key " ++ quoted uk ++ " cannot be found")
      | some u => .ok (svc.name ++ "/" ++ toString u.sequence) := by
  unfold unitName
  rw [h]

/-- After a successful addUnit, the new unit's human-readable name is the
service name, a slash, and the returned sequence number. -/
theorem unitName_after_addUnit {t : Topology} {sk uk : String} {n : Int}
    {t1 : Topology} {nm : String}
    (h : addUnit t sk uk = .ok (n, t1)) (hnm : serviceNameOf t sk = some nm) :
    unitName t1 sk uk = .ok (nm ++ "/" ++ toString n) := by
  obtain ⟨svc, hsvc, how, hn, ht⟩ := addUnit_ok_iff.mp h
  have hname : svc.name = nm := by
    unfold serviceNameOf at hnm
    rw [hsvc] at hnm
    simpa using hnm
  have hfree : alookup svc.units uk = none := by
    have hmem : (sk, svc) ∈ t.services := alookup_mem hsvc
    unfold unitOwner at how
    cases hfind : List.find? (fun p => (alookup p.2.units uk).isSome) t.services with
    | some p => rw [hfind] at how; simp at how
    | none =>
      have := List.find?_eq_none.mp hfind (sk, svc) hmem
      simpa using this
  subst ht
  rw [unitName_eq (by rw [alookup_updateService_self, hsvc, Option.map_some'])]
  rw [alookup_append_of_none _ hfree]
  rw [alookup_cons]
  simp [hname]

/-- C1: each successful addUnit on a service returns a sequence number
strictly greater than any sequence number previously returned for a unit
of a service with the same name (across any later run of topology
mutators, including service removal and recreation); the unit's
human-readable name is the service name followed by a slash and the
sequence; and in the wordpress scenario the re-added unit is named
wordpress/2, never wordpress/0. -/
theorem addUnit_seq_monotone_and_name
    (t : Topology) (sk uk : String) (n : Int) (t1 : Topology) (nm : String)
    (ops : List Op) (sk2 uk2 : String) (m : Int) (t2 : Topology)
    (h1 : addUnit t sk uk = .ok (n, t1))
    (hn1 : serviceNameOf t sk = some nm)
    (h2 : addUnit (run t1 ops) sk2 uk2 = .ok (m, t2))
    (hn2 : serviceNameOf (run t1 ops) sk2 = some nm) :
    n < m ∧ unitName t1 sk uk = .ok (nm ++ "/" ++ toString n) ∧
      wordpressScenarioHolds = true := by
  obtain ⟨svc, hsvc, how, hn, ht⟩ := addUnit_ok_iff.mp h1
  have hname : svc.name = nm := by
    unfold serviceNameOf at hn1
    rw [hsvc] at hn1
    simpa using hn1
  obtain ⟨svc2, hsvc2, how2, hm, ht2⟩ := addUnit_ok_iff.mp h2
  have hname2 : svc2.name = nm := by
    unfold serviceNameOf at hn2
    rw [hsvc2] at hn2
    simpa using hn2
  refine ⟨?_, unitName_after_addUnit h1 hn1, by decide⟩
  -- immediately after the first addUnit the counter for nm is n + 1
  have hbump : seqOf t1 nm = n + 1 := by
    rw [ht]
    unfold seqOf
    rw [alookup_setSeq, hname, if_pos rfl, Option.getD_some]
  -- the counter never decreases afterwards
  have hrun : seqOf t1 nm ≤ seqOf (run t1 ops) nm := seqOf_run_mono t1 ops nm
  -- the second addUnit returns the counter at its time
  have hm2 : m = seqOf (run t1 ops) nm := by rw [hm, hname2]
  omega

theorem addUnit_seq_monotone_and_name_witness :
    (0 : Int) < 1 ∧ unitName w_t1 "s-0" "u-0" = .ok ("wordpress" ++ "/" ++ toString (0 : Int)) ∧
      wordpressScenarioHolds = true :=
  addUnit_seq_monotone_and_name w_t0 "s-0" "u-0" 0 w_t1 "wordpress" [] "s-0" "u-1" 1 w_t2
    (by rfl) (by decide) (by rfl) (by decide)

/-- C2: parseTopology refuses any document whose version differs from the
supported protocol version with the incompatible-topology-versions error,
and accepts any document whose version matches. -/
theorem parseTopology_version_check (doc : Topology) :
    (doc.version ≠ topologyVersion →
      parseTopology doc = .error ("incompatible topology versions: got " ++
        toString doc.version ++ ", want " ++ toString topologyVersion))
    ∧ (doc.version = topologyVersion → parseTopology doc = .ok doc) := by
  constructor
  · intro h
    unfold parseTopology
    rw [if_pos h]
  · intro h
    unfold parseTopology
    rw [if_neg (by simp [h])]

theorem parseTopology_version_check_witness :
    (parseTopology { emptyTopology with version := 2 } = .error
      ("incompatible topology versions: got " ++ toString (2 : Int) ++
        ", want " ++ toString topologyVersion))
    ∧ parseTopology emptyTopology = .ok emptyTopology :=
  ⟨(parseTopology_version_check { emptyTopology with version := 2 }).1 (by decide),
   (parseTopology_version_check emptyTopology).2 (by decide)⟩

/-- C3 counterexample: the unit key u-0 is used by a past successful
addUnit, the unit is then removed, and a later addUnit accepts the very
same key again — so a key that has ever been used is not, in fact,
refused forever. -/
theorem addUnit_accepts_previously_used_key : c3used = true ∧ c3reused = true := by
  decide

/-- C3 amended: whenever the target service exists and any service in the
topology currently contains the unit key, addUnit fails with the
already-in-use error naming the owning service (if the target service is
missing, a service-not-found error is reported instead); a unit key whose
unit has been removed is no longer in use and may be accepted again. -/
theorem addUnit_key_in_use_rejected (t : Topology) (sk uk owner : String)
    (hs : hasService t sk = true)
    (ho : unitOwner t.services uk = some owner) :
    addUnit t sk uk =
      .error ("unit " ++ quoted uk ++ " already in use in servie " ++ quoted owner) := by
  unfold hasService at hs
  rw [Option.isSome_iff_exists] at hs
  obtain ⟨svc, hsvc⟩ := hs
  unfold addUnit
  rw [hsvc, ho]

theorem addUnit_key_in_use_rejected_witness :
    addUnit c3t2 "s-0" "u-0" =
      .error ("unit " ++ quoted "u-0" ++ " already in use in servie " ++ quoted "s-0") :=
  addUnit_key_in_use_rejected c3t2 "s-0" "u-0" "s-0" (by decide) (by decide)

/-- C4: PrepareHook first validates the hook info; on validation failure
it returns an empty hook name together with the error and leaves the
context members unchanged; on success it publishes the hook info's member
snapshot to the context and returns the relation-name-relation-kind hook
name with no error. -/
theorem prepareHook_spec (validate : HookInfo → Option String) (relName : String)
    (r : Relationer) (hi : HookInfo) :
    (∀ e, validate hi = some e →
      prepareHook validate relName r hi = ("", some e, r))
    ∧ (validate hi = none →
      prepareHook validate relName r hi =
        (relName ++ "-relation-" ++ hi.hookKind, none, { r with ctxMembers := hi.members })) := by
  constructor
  · intro e he
    unfold prepareHook
    rw [he]
  · intro hv
    unfold prepareHook
    rw [hv]

theorem prepareHook_spec_witness :
    (prepareHook (fun _ => some "bad state") "db" emptyRelationer sampleHookInfo =
      ("", some "bad state", emptyRelationer))
    ∧ prepareHook (fun _ => none) "db" emptyRelationer sampleHookInfo =
      ("db" ++ "-relation-" ++ sampleHookInfo.hookKind, none,
        { emptyRelationer with ctxMembers := sampleHookInfo.members }) :=
  ⟨(prepareHook_spec (fun _ => some "bad state") "db" emptyRelationer sampleHookInfo).1
      "bad state" rfl,
   (prepareHook_spec (fun _ => none) "db" emptyRelationer sampleHookInfo).2 rfl⟩

/-- C5: Join panics exactly when the unit is already joined, and
StartHooks panics exactly when the hook queue is already running; in
every other state neither aborts. -/
theorem join_startHooks_panic_spec (r : Relationer) (ruJoin : Except String Pinger)
    (newQueue : HookQueue) :
    (r.pinger.isSome = true → join r ruJoin = .panicked "unit already joined!")
    ∧ (r.pinger = none → ∀ msg, join r ruJoin ≠ .panicked msg)
    ∧ (r.queue.isSome = true → startHooks r newQueue = .panicked "hooks already started!")
    ∧ (r.queue = none → ∀ msg, startHooks r newQueue ≠ .panicked msg) := by
  refine ⟨?_, ?_, ?_, ?_⟩
  · intro h
    rw [Option.isSome_iff_exists] at h
    obtain ⟨p, hp⟩ := h
    unfold join
    rw [hp]
  · intro h msg
    unfold join
    rw [h]
    cases ruJoin with
    | error e => simp
    | ok p => simp
  · intro h
    rw [Option.isSome_iff_exists] at h
    obtain ⟨q, hq⟩ := h
    unfold startHooks
    rw [hq]
  · intro h msg
    unfold startHooks
    rw [h]
    simp

theorem join_startHooks_panic_spec_witness :
    (join joinedRelationer (.ok { stopResult := none }) = .panicked "unit already joined!")
    ∧ (∀ msg, join emptyRelationer (.ok { stopResult := none }) ≠ .panicked msg)
    ∧ (startHooks joinedRelationer { stopResult := none } = .panicked "hooks already started!")
    ∧ (∀ msg, startHooks emptyRelationer { stopResult := none } ≠ .panicked msg) :=
  ⟨(join_startHooks_panic_spec joinedRelationer (.ok { stopResult := none })
      { stopResult := none }).1 (by decide),
   (join_startHooks_panic_spec emptyRelationer (.ok { stopResult := none })
      { stopResult := none }).2.1 rfl,
   (join_startHooks_panic_spec joinedRelationer (.ok { stopResult := none })
      { stopResult := none }).2.2.1 (by decide),
   (join_startHooks_panic_spec emptyRelationer (.ok { stopResult := none })
      { stopResult := none }).2.2.2 rfl⟩

/-- C6: stopping is idempotent: a second Abandon immediately after a
first returns nil and leaves the state unchanged, Abandon on a
never-joined (or already-abandoned) relationer returns nil without
change, and likewise for StopHooks. -/
theorem abandon_stopHooks_idempotent (r : Relationer) :
    (abandon (abandon r).2 = (none, (abandon r).2))
    ∧ (r.pinger = none → abandon r = (none, r))
    ∧ (stopHooks (stopHooks r).2 = (none, (stopHooks r).2))
    ∧ (r.queue = none → stopHooks r = (none, r)) := by
  refine ⟨?_, ?_, ?_, ?_⟩
  · cases hp : r.pinger with
    | none => simp [abandon, hp]
    | some p => simp [abandon, hp]
  · intro h
    unfold abandon
    rw [h]
  · cases hq : r.queue with
    | none => simp [stopHooks, hq]
    | some q => simp [stopHooks, hq]
  · intro h
    unfold stopHooks
    rw [h]

/-- Every machine without an instance id is started in a pass over it. -/
theorem provisionLog_covers (cfg : EnvCfg) (mid : Nat) :
    ∀ (ms : List PMachine) (next : Nat),
      ({ id := mid, instId := none } : PMachine) ∈ ms →
      ∃ i, ({ machineId := mid, instId := i, cfg := cfg } : StartRecord) ∈
        provisionLog cfg next ms := by
  intro ms
  induction ms with
  | nil => intro next h; simp at h
  | cons m rest ih =>
    intro next hmem
    rcases List.mem_cons.mp hmem with heq | htail
    · have : m.instId = none := by rw [← heq]
      have hid : m.id = mid := by rw [← heq]
      refine ⟨next, ?_⟩
      unfold provisionLog
      rw [this, hid]
      exact List.mem_cons_self _ _
    · cases hinst : m.instId with
      | some v =>
        obtain ⟨i, hi⟩ := ih next htail
        exact ⟨i, by unfold provisionLog; rw [hinst]; exact hi⟩
      | none =>
        obtain ⟨i, hi⟩ := ih (next + 1) htail
        exact ⟨i, by unfold provisionLog; rw [hinst]; exact List.mem_cons_of_mem _ hi⟩

/-- C7: while the environment configuration is invalid the provisioner
keeps running on the last-known-good configuration: the invalid
configuration event leaves the state untouched, a machine added
afterwards is still started using the previous valid configuration, and
once a valid configuration is published every pending machine is
provisioned on that pass. -/
theorem provisioner_uses_last_known_good_config
    (s : PState) (cfg : EnvCfg) (mid : Nat)
    (h : s.environ = some cfg) :
    (pstep s (.configChange none) = s)
    ∧ (∃ i, ({ machineId := mid, instId := i, cfg := cfg } : StartRecord) ∈
        (pstep (pstep s (.configChange none)) (.addMachine mid)).started)
    ∧ (∀ (s2 : PState) (cfg2 : EnvCfg) (mid2 : Nat),
        ({ id := mid2, instId := none } : PMachine) ∈ s2.machines →
        ∃ i, ({ machineId := mid2, instId := i, cfg := cfg2 } : StartRecord) ∈
          (pstep s2 (.configChange (some cfg2))).started) := by
  refine ⟨rfl, ?_, ?_⟩
  · show ∃ i, _ ∈ (pstep s (.addMachine mid)).started
    unfold pstep provisionPass
    rw [h]
    obtain ⟨i, hi⟩ := provisionLog_covers cfg mid
      (s.machines ++ [{ id := mid, instId := none }]) s.nextInst
      (List.mem_append_right _ (List.mem_cons_self _ _))
    exact ⟨i, List.mem_append_right _ hi⟩
  · intro s2 cfg2 mid2 hmem
    unfold pstep provisionPass
    obtain ⟨i, hi⟩ := provisionLog_covers cfg2 mid2 s2.machines s2.nextInst hmem
    exact ⟨i, List.mem_append_right _ hi⟩

theorem provisioner_uses_last_known_good_config_witness :
    (pstep pInitial (.configChange none) = pInitial)
    ∧ (∃ i, ({ machineId := 7, instId := i, cfg := "good" } : StartRecord) ∈
        (pstep (pstep pInitial (.configChange none)) (.addMachine 7)).started)
    ∧ (∀ (s2 : PState) (cfg2 : EnvCfg) (mid2 : Nat),
        ({ id := mid2, instId := none } : PMachine) ∈ s2.machines →
        ∃ i, ({ machineId := mid2, instId := i, cfg := cfg2 } : StartRecord) ∈
          (pstep s2 (.configChange (some cfg2))).started) :=
  provisioner_uses_last_known_good_config pInitial "good" 7 rfl

theorem abandon_stopHooks_idempotent_witness :
    (abandon (abandon joinedRelationer).2 = (none, (abandon joinedRelationer).2))
    ∧ (abandon emptyRelationer = (none, emptyRelationer))
    ∧ (stopHooks (stopHooks joinedRelationer).2 = (none, (stopHooks joinedRelationer).2))
    ∧ (stopHooks emptyRelationer = (none, emptyRelationer)) :=
  ⟨(abandon_stopHooks_idempotent joinedRelationer).1,
   (abandon_stopHooks_idempotent emptyRelationer).2.1 rfl,
   (abandon_stopHooks_idempotent joinedRelationer).2.2.1,
   (abandon_stopHooks_idempotent emptyRelationer).2.2.2 rfl⟩

theorem alookup_aupdate_self {β : Type} (l : List (String × β)) (k : String) (b : β) :
    alookup (aupdate l k b) k = (alookup l k).map fun _ => b := by
  induction l with
  | nil => simp [aupdate, alookup]
  | cons p rest ih =>
    by_cases hk : p.1 = k
    · simp [aupdate, alookup_cons, hk]
    · simpa [aupdate, alookup_cons, hk] using ih

theorem alookup_aupdate_ne {β : Type} (l : List (String × β)) {k n : String}
    (h : k ≠ n) (b : β) : alookup (aupdate l k b) n = alookup l n := by
  induction l with
  | nil => simp [aupdate, alookup]
  | cons p rest ih =>
    simp only [aupdate, List.map_cons] at ih ⊢
    by_cases hk : p.1 = k
    · rw [if_pos hk, alookup_cons, alookup_cons]
      have h1 : ((k, b) : String × β).1 ≠ n := h
      rw [if_neg h1, if_neg (show ¬(p.1 = n) by rw [hk]; exact h)]
      exact ih
    · rw [if_neg hk, alookup_cons, alookup_cons]
      by_cases hpn : p.1 = n
      · rw [if_pos hpn, if_pos hpn]
      · rw [if_neg hpn, if_neg hpn]
        exact ih

theorem alookup_append_of_some {β : Type} {l : List (String × β)} (m : List (String × β))
    {k : String} {v : β} (h : alookup l k = some v) : alookup (l ++ m) k = some v := by
  induction l with
  | nil => simp [alookup] at h
  | cons p rest ih =>
    rw [alookup_cons] at h
    by_cases hk : p.1 = k
    · rw [if_pos hk] at h
      simpa [alookup_cons, hk] using h
    · rw [if_neg hk] at h
      simpa [alookup_cons, hk] using ih h

/-- ensureOne reduced when the link already exists. -/
theorem ensureOne_eq_of_some {d : ToolsDir} {m tgt : String} {tm : Nat} (clock : Nat)
    (hm : alookup d m = some (tgt, tm)) :
    ensureOne clock d m = if tgt = "./jujuc" then d else aupdate d m ("./jujuc", clock) := by
  unfold ensureOne
  rw [hm]

/-- ensureOne reduced when the link is missing. -/
theorem ensureOne_eq_of_none {d : ToolsDir} {m : String} (clock : Nat)
    (hm : alookup d m = none) :
    ensureOne clock d m = d ++ [(m, "./jujuc", clock)] := by
  unfold ensureOne
  rw [hm]

/-- ensureOne never rewrites a correct link, anywhere in the directory. -/
theorem ensureOne_preserves_correct {d : ToolsDir} {n : String} {t : Nat}
    (clock : Nat) (m : String)
    (h : alookup d n = some ("./jujuc", t)) :
    alookup (ensureOne clock d m) n = some ("./jujuc", t) := by
  cases hm : alookup d m with
  | none =>
    rw [ensureOne_eq_of_none clock hm]
    exact alookup_append_of_some _ h
  | some v =>
    obtain ⟨tgt, tm⟩ := v
    rw [ensureOne_eq_of_some clock hm]
    by_cases htgt : tgt = "./jujuc"
    · rw [if_pos htgt]
      exact h
    · rw [if_neg htgt]
      by_cases hmn : m = n
      · subst hmn
        rw [hm] at h
        simp at h
        exact absurd h.1 htgt
      · rw [alookup_aupdate_ne _ hmn]
        exact h

theorem ensureTools_preserves_correct {d : ToolsDir} {n : String} {t : Nat}
    (names : List String) (clock : Nat)
    (h : alookup d n = some ("./jujuc", t)) :
    alookup (ensureTools names clock d) n = some ("./jujuc", t) := by
  induction names generalizing d with
  | nil => exact h
  | cons m rest ih =>
    show alookup (ensureTools rest clock (ensureOne clock d m)) n = _
    exact ih (ensureOne_preserves_correct clock m h)

/-- After ensureOne the named link is correct. -/
theorem ensureOne_establishes (clock : Nat) (d : ToolsDir) (n : String) :
    ∃ t, alookup (ensureOne clock d n) n = some ("./jujuc", t) := by
  cases hm : alookup d n with
  | none =>
    refine ⟨clock, ?_⟩
    rw [ensureOne_eq_of_none clock hm, alookup_append_of_none _ hm]
    simp [alookup]
  | some v =>
    obtain ⟨tgt, tm⟩ := v
    rw [ensureOne_eq_of_some clock hm]
    by_cases htgt : tgt = "./jujuc"
    · subst htgt
      exact ⟨tm, by rw [if_pos rfl]; exact hm⟩
    · refine ⟨clock, ?_⟩
      rw [if_neg htgt, alookup_aupdate_self, hm, Option.map_some']

/-- After a full pass, every requested link is correct. -/
theorem ensureTools_establishes (names : List String) (clock : Nat) (d : ToolsDir)
    {n : String} (hn : n ∈ names) :
    ∃ t, alookup (ensureTools names clock d) n = some ("./jujuc", t) := by
  induction names generalizing d with
  | nil => simp at hn
  | cons m rest ih =>
    show ∃ t, alookup (ensureTools rest clock (ensureOne clock d m)) n = _
    rcases List.mem_cons.mp hn with heq | htail
    · subst heq
      obtain ⟨t, ht⟩ := ensureOne_establishes clock d n
      exact ⟨t, ensureTools_preserves_correct rest clock ht⟩
    · exact ih (ensureOne clock d m) htail

/-- A pass over a directory whose requested links are all correct is the
identity: nothing is rewritten. -/
theorem ensureTools_stable (names : List String) (clock : Nat) (d : ToolsDir)
    (h : ∀ n ∈ names, ∃ t, alookup d n = some ("./jujuc", t)) :
    ensureTools names clock d = d := by
  induction names with
  | nil => rfl
  | cons m rest ih =>
    obtain ⟨t, ht⟩ := h m (List.mem_cons_self _ _)
    have hone : ensureOne clock d m = d := by
      rw [ensureOne_eq_of_some clock ht, if_pos rfl]
    show ensureTools rest clock (ensureOne clock d m) = d
    rw [hone]
    exact ih fun n hn => h n (List.mem_cons_of_mem _ hn)

/-- C8: EnsureTools is idempotent: on a fresh directory one symlink per
recognized command name is created, each pointing at ./jujuc; a second
call returns success leaving the directory bit-for-bit unchanged (so no
mtime changes); and an already-correct symlink is never rewritten or
replaced. -/
theorem ensureTools_idempotent (names : List String) (c1 c2 t : Nat)
    (d : ToolsDir) (n n2 : String) :
    (n ∈ names → ∃ t2, alookup (ensureTools names c1 []) n = some ("./jujuc", t2))
    ∧ ensureTools names c2 (ensureTools names c1 d) = ensureTools names c1 d
    ∧ (alookup d n2 = some ("./jujuc", t) →
        alookup (ensureTools names c1 d) n2 = some ("./jujuc", t)) := by
  refine ⟨?_, ?_, ?_⟩
  · intro hn
    exact ensureTools_establishes names c1 [] hn
  · exact ensureTools_stable names c2 _
      fun m hm => ensureTools_establishes names c1 d hm
  · intro h
    exact ensureTools_preserves_correct names c1 h

theorem ensureTools_idempotent_witness :
    ("relation-get" ∈ ["config-get", "relation-get"] →
      ∃ t2, alookup (ensureTools ["config-get", "relation-get"] 5 []) "relation-get" =
        some ("./jujuc", t2))
    ∧ ensureTools ["config-get", "relation-get"] 9
        (ensureTools ["config-get", "relation-get"] 5 [("unit-get", "./jujuc", 1)]) =
      ensureTools ["config-get", "relation-get"] 5 [("unit-get", "./jujuc", 1)]
    ∧ (alookup [("unit-get", "./jujuc", 1)] "unit-get" = some ("./jujuc", 1) →
        alookup (ensureTools ["config-get", "relation-get"] 5 [("unit-get", "./jujuc", 1)])
          "unit-get" = some ("./jujuc", 1)) :=
  ensureTools_idempotent ["config-get", "relation-get"] 5 9 1
    [("unit-get", "./jujuc", 1)] "relation-get" "unit-get"

/-- C9: Instances with an empty ids slice returns ErrNoInstances and no
instances for every provider state — without consulting the query, whose
empty filter would have matched all instances; a query that finds nothing
yields ErrNoInstances; a query that finds fewer instances than requested
yields the partial list together with ErrPartialInstances. -/
theorem maas_instances_error_cases (maas ids : List InstId) :
    (Instances maas [] = ([], some .noInstances))
    ∧ instancesQuery maas [] = maas
    ∧ (ids ≠ [] → instancesQuery maas ids = [] →
        Instances maas ids = ([], some .noInstances))
    ∧ (ids ≠ [] → instancesQuery maas ids ≠ [] →
        (instancesQuery maas ids).length < ids.length →
        Instances maas ids = (instancesQuery maas ids, some .partialInstances)) := by
  refine ⟨rfl, rfl, ?_, ?_⟩
  · intro hne hq
    have hlen : ¬(ids.length = 0) := by
      simpa [List.length_eq_zero] using hne
    unfold Instances
    rw [if_neg hlen]
    simp [hq]
  · intro hne hq hlt
    have hlen : ¬(ids.length = 0) := by
      simpa [List.length_eq_zero] using hne
    have hqlen : ¬((instancesQuery maas ids).length = 0) := by
      simpa [List.length_eq_zero] using hq
    unfold Instances
    rw [if_neg hlen]
    simp only []
    rw [if_neg hqlen, if_pos (by omega)]

theorem maas_instances_error_cases_witness :
    (Instances ["a", "b"] [] = ([], some .noInstances))
    ∧ instancesQuery ["a", "b"] [] = ["a", "b"]
    ∧ Instances ["a", "b"] ["c", "d"] = ([], some .noInstances)
    ∧ Instances ["a", "b"] ["a", "c"] = (["a"], some .partialInstances) := by
  obtain ⟨h1, h2, h3, h4⟩ := maas_instances_error_cases ["a", "b"] ["c", "d"]
  obtain ⟨_, _, _, h5⟩ := maas_instances_error_cases ["a", "b"] ["a", "c"]
  refine ⟨h1, h2, ?_, ?_⟩
  · have := h3 (by decide) (by decide)
    exact this
  · have := h5 (by decide) (by decide) (by decide)
    simpa using this

theorem le_maxFold (src : List Tools) (b : Nat) : b ≤ maxFold b src := by
  induction src generalizing b with
  | nil => exact le_rfl
  | cons t rest ih =>
    calc b ≤ max b t.number := Nat.le_max_left _ _
      _ ≤ maxFold (max b t.number) rest := ih _
      _ = maxFold b (t :: rest) := rfl

theorem mem_le_maxFold {src : List Tools} {t : Tools} (h : t ∈ src)
    (b : Nat) : t.number ≤ maxFold b src := by
  induction src generalizing b with
  | nil => simp at h
  | cons m rest ih =>
    rcases List.mem_cons.mp h with heq | htail
    · subst heq
      calc t.number ≤ max b t.number := Nat.le_max_right _ _
        _ ≤ maxFold (max b t.number) rest := le_maxFold rest _
        _ = maxFold b (t :: rest) := rfl
    · exact ih htail _

theorem maxFold_attained (src : List Tools) (b : Nat) :
    maxFold b src = b ∨ ∃ t ∈ src, t.number = maxFold b src := by
  induction src generalizing b with
  | nil => exact Or.inl rfl
  | cons m rest ih =>
    have hstep : maxFold b (m :: rest) = maxFold (max b m.number) rest := rfl
    rcases ih (max b m.number) with heq | ⟨t, ht, hnum⟩
    · by_cases hbm : b < m.number
      · refine Or.inr ⟨m, List.mem_cons_self _ _, ?_⟩
        rw [hstep, heq]
        exact (max_eq_right (le_of_lt hbm)).symm
      · left
        rw [hstep, heq]
        exact max_eq_left (le_of_not_lt hbm)
    · exact Or.inr ⟨t, List.mem_cons_of_mem _ ht, by rw [hstep]; exact hnum⟩

/-- The first component of the Newest fold is the running maximum. -/
theorem newest_fst (src : List Tools) (b : Nat) (r : List Tools) :
    (src.foldl newestStep (b, r)).1 = maxFold b src := by
  induction src generalizing b r with
  | nil => rfl
  | cons t rest ih =>
    show ((rest.foldl newestStep (newestStep (b, r) t))).1 = maxFold (max b t.number) rest
    by_cases hlt : b < t.number
    · have h1 : newestStep (b, r) t = (t.number, [t]) := by
        unfold newestStep
        rw [if_pos hlt]
      rw [h1, max_eq_right (le_of_lt hlt)]
      exact ih _ _
    · have hmax : max b t.number = b := max_eq_left (le_of_not_lt hlt)
      by_cases heq : t.number = b
      · have h1 : newestStep (b, r) t = (b, r ++ [t]) := by
          unfold newestStep
          rw [if_neg hlt, if_pos heq]
        rw [h1, hmax]
        exact ih _ _
      · have h1 : newestStep (b, r) t = (b, r) := by
          unfold newestStep
          rw [if_neg hlt, if_neg heq]
        rw [h1, hmax]
        exact ih _ _

/-- The second component of the Newest fold: if a strictly newer number
appears, the result is exactly the elements carrying the final maximum;
otherwise the accumulator followed by the elements equal to the seed. -/
theorem newest_snd (src : List Tools) (b : Nat) (r : List Tools) :
    (src.foldl newestStep (b, r)).2 =
      if b < maxFold b src then src.filter (fun t => t.number = maxFold b src)
      else r ++ src.filter (fun t => t.number = b) := by
  induction src generalizing b r with
  | nil =>
    simp [maxFold]
  | cons t rest ih =>
    have hstep : maxFold b (t :: rest) = maxFold (max b t.number) rest := rfl
    show ((rest.foldl newestStep (newestStep (b, r) t))).2 = _
    by_cases hlt : b < t.number
    · have h1 : newestStep (b, r) t = (t.number, [t]) := by
        unfold newestStep
        rw [if_pos hlt]
      have hmax : max b t.number = t.number := max_eq_right (le_of_lt hlt)
      rw [h1, ih t.number [t]]
      have hM : maxFold b (t :: rest) = maxFold t.number rest := by rw [hstep, hmax]
      have htle : t.number ≤ maxFold t.number rest := le_maxFold rest t.number
      by_cases hlt2 : t.number < maxFold t.number rest
      · rw [if_pos hlt2, if_pos (by rw [hM]; omega)]
        rw [hM]
        have : ¬(t.number = maxFold t.number rest) := by omega
        simp [List.filter_cons, this]
      · have heqM : maxFold t.number rest = t.number := by omega
        rw [if_neg hlt2, if_pos (by rw [hM, heqM]; omega)]
        rw [hM, heqM]
        simp [List.filter_cons]
    · have hmax : max b t.number = b := max_eq_left (le_of_not_lt hlt)
      have hM : maxFold b (t :: rest) = maxFold b rest := by rw [hstep, hmax]
      by_cases heq : t.number = b
      · have h1 : newestStep (b, r) t = (b, r ++ [t]) := by
          unfold newestStep
          rw [if_neg hlt, if_pos heq]
        rw [h1, ih b (r ++ [t])]
        by_cases hlt2 : b < maxFold b rest
        · rw [if_pos hlt2, if_pos (by rw [hM]; omega)]
          rw [hM]
          have : ¬(t.number = maxFold b rest) := by omega
          simp [List.filter_cons, this]
        · rw [if_neg hlt2, if_neg (by rw [hM]; omega)]
          simp [List.filter_cons, heq, List.append_assoc]
      · have hne : t.number < b := by omega
        have h1 : newestStep (b, r) t = (b, r) := by
          unfold newestStep
          rw [if_neg hlt, if_neg heq]
        rw [h1, ih b r]
        by_cases hlt2 : b < maxFold b rest
        · rw [if_pos hlt2, if_pos (by rw [hM]; omega)]
          rw [hM]
          have : ¬(t.number = maxFold b rest) := by
            have := le_maxFold rest b
            omega
          simp [List.filter_cons, this]
        · rw [if_neg hlt2, if_neg (by rw [hM]; omega)]
          have : ¬(t.number = b) := by omega
          simp [List.filter_cons, this]

/-- C10: Newest returns the maximum version number occurring in the list
(the zero version for an empty list), together with exactly the elements
carrying that number in their original order; the result list is empty
precisely when the source list is. -/
theorem newest_max_and_filter (src : List Tools) :
    (∀ t ∈ src, t.number ≤ (newest src).1)
    ∧ (src = [] → (newest src).1 = 0)
    ∧ (src ≠ [] → ∃ t ∈ src, t.number = (newest src).1)
    ∧ (newest src).2 = src.filter (fun t => t.number = (newest src).1)
    ∧ ((newest src).2 = [] ↔ src = []) := by
  have hfst : (newest src).1 = maxFold 0 src := newest_fst src 0 []
  have hsnd : (newest src).2 = src.filter (fun t => t.number = maxFold 0 src) := by
    rw [show (newest src).2 = (src.foldl newestStep (0, [])).2 from rfl, newest_snd]
    by_cases h0 : 0 < maxFold 0 src
    · rw [if_pos h0]
    · rw [if_neg h0]
      have : maxFold 0 src = 0 := by omega
      rw [this]
      simp
  have hex : src ≠ [] → ∃ t ∈ src, t.number = maxFold 0 src := by
    intro hne
    rcases maxFold_attained src 0 with heq | hex
    · cases src with
      | nil => exact absurd rfl hne
      | cons t rest =>
        refine ⟨t, List.mem_cons_self _ _, ?_⟩
        have h1 := mem_le_maxFold (List.mem_cons_self t rest) 0
        omega
    · exact hex
  refine ⟨?_, ?_, ?_, ?_, ?_⟩
  · intro t ht
    rw [hfst]
    exact mem_le_maxFold ht 0
  · intro h
    subst h
    rfl
  · intro hne
    rw [hfst]
    exact hex hne
  · rw [hsnd, hfst]
  · constructor
    · intro hres
      by_contra hne
      obtain ⟨t, ht, hnum⟩ := hex hne
      have : t ∈ (newest src).2 := by
        rw [hsnd]
        exact List.mem_filter.mpr ⟨ht, by simp [hnum]⟩
      rw [hres] at this
      simp at this
    · intro h
      subst h
      rfl

theorem newest_max_and_filter_witness :
    (∃ t ∈ newestSample, t.number = (newest newestSample).1)
    ∧ (newest newestSample).2 =
        newestSample.filter (fun t => t.number = (newest newestSample).1) :=
  ⟨(newest_max_and_filter newestSample).2.2.1 (by decide),
   (newest_max_and_filter newestSample).2.2.2.1⟩

end Juju

